import Mathlib

/-!
Verification of the actor-critic RL trainer (`trax/rl/actor_critic.py`).

Numeric tensors are shallowly embedded as nested arrays of rationals
(`ND`), with the numpy shape discipline made explicit: `shape`, axis
squeezing, time-axis truncation, and elementwise arithmetic on
shape-matching operands.  Fallible numpy operations (squeeze of a
non-singleton axis, out-of-range shape indexing, elementwise ops on
incompatible operands) return `Option`, standing for a raised Python
error.  The transcendental `jnp.exp` is an external numeric primitive
and is passed as an explicit function parameter `rexp` to the losses
that use it.

Trainer weights and states are embedded as plain lists with Python
slice-assignment semantics; the epoch coordination loop is embedded as
a state-transition function parameterized over the external
collaborators (`remaining_evals`, the two supervised `train_epoch`
loops, the value model and the advantage estimator).
-/

set_option linter.unusedVariables false

namespace TraxActorCritic

/-- Nested numeric array: the embedding of a numpy ndarray of rationals.
A scalar is rank 0; `ND.a xs` stacks subarrays along a new leading axis. -/
inductive ND where
  | s (q : ℚ)
  | a (xs : List ND)

/-- The numpy `shape` of a nested array (for well-formed, rectangular
arrays; the shape of an empty axis is recorded as 0). -/
def shape : ND → List ℕ
  | .s _ => []
  | .a [] => [0]
  | .a (x :: xs) => (xs.length + 1) :: shape x

/-- Number of axes. -/
def rankND (x : ND) : ℕ := (shape x).length

mutual

/-- Predicate `hasShape x sh` checks that `x` is a rectangular array of shape `sh`. -/
def hasShape : ND → List ℕ → Bool
  | .s _, [] => true
  | .a xs, n :: ns => (xs.length == n) && hasShapeAll xs ns
  | _, _ => false

/-- All members of a list have the given shape. -/
def hasShapeAll : List ND → List ℕ → Bool
  | [], _ => true
  | x :: xs, ns => hasShape x ns && hasShapeAll xs ns

end

mutual

/-- Two arrays have identical shape (hence identical tree structure). -/
def sameShape : ND → ND → Bool
  | .s _, .s _ => true
  | .a xs, .a ys => sameShapeList xs ys
  | _, _ => false

/-- Pointwise `sameShape` on lists of equal length. -/
def sameShapeList : List ND → List ND → Bool
  | [], [] => true
  | x :: xs, y :: ys => sameShape x y && sameShapeList xs ys
  | _, _ => false

end

mutual

/-- Elementwise map over every scalar entry (numpy unary ufunc /
multiplication by a Python scalar). -/
def map1 (f : ℚ → ℚ) : ND → ND
  | .s q => .s (f q)
  | .a xs => .a (map1List f xs)

/-- Map `map1` over a list of subarrays. -/
def map1List (f : ℚ → ℚ) : List ND → List ND
  | [] => []
  | x :: xs => map1 f x :: map1List f xs

end

mutual

/-- Elementwise binary operation on two arrays of identical shape
(numpy binary ufunc on shape-matching operands; a shape mismatch —
which numpy would either broadcast or reject — does not occur at any
call site below on well-formed data and is mapped to `none`). -/
def zip2 (f : ℚ → ℚ → ℚ) : ND → ND → Option ND
  | .s x, .s y => some (.s (f x y))
  | .a xs, .a ys => (zip2List f xs ys).map ND.a
  | _, _ => none

/-- Map `zip2` over two lists of subarrays of equal length. -/
def zip2List (f : ℚ → ℚ → ℚ) : List ND → List ND → Option (List ND)
  | [], [] => some []
  | x :: xs, y :: ys =>
    Option.bind (zip2 f x y) fun z =>
    Option.bind (zip2List f xs ys) fun zs =>
    some (z :: zs)
  | _, _ => none

end

mutual

/-- Sum of all scalar entries (`jnp.sum`). -/
def sumND : ND → ℚ
  | .s q => q
  | .a xs => sumNDList xs

/-- Sum of all scalar entries of a list of subarrays. -/
def sumNDList : List ND → ℚ
  | [] => 0
  | x :: xs => sumND x + sumNDList xs

end

mutual

/-- Embedding of `np.squeeze(x, axis=n)`: removes axis `n`, failing (Python
`ValueError`/`AxisError`) unless that axis exists and has size 1. -/
def squeezeAt : ℕ → ND → Option ND
  | 0, .a [x] => some x
  | 0, _ => none
  | _ + 1, .s _ => none
  | n + 1, .a xs => (squeezeAtList n xs).map ND.a

/-- Map `squeezeAt` over every member of a list. -/
def squeezeAtList : ℕ → List ND → Option (List ND)
  | _, [] => some []
  | n, x :: xs =>
    Option.bind (squeezeAt n x) fun y =>
    Option.bind (squeezeAtList n xs) fun ys =>
    some (y :: ys)

end

/-- Embedding of `x.squeeze(axis=-1)`: squeeze the last axis. -/
def squeezeLast (x : ND) : Option ND := squeezeAt (rankND x - 1) x

/-- Embedding of `x[:, :L]`: truncate the second (time) axis to at most `L` entries. -/
def trunc1 (L : ℕ) : ND → ND
  | .s q => .s q
  | .a xs => .a (xs.map fun r =>
      match r with
      | .s q => .s q
      | .a ys => .a (ys.take L))

mutual

/-- Embedding of `x[..., None]`: append a trailing unit axis (each scalar entry
becomes a singleton subarray). -/
def expandLast : ND → ND
  | .s q => .a [.s q]
  | .a xs => .a (expandLastList xs)

/-- Map `expandLast` over a list of subarrays. -/
def expandLastList : List ND → List ND
  | [] => []
  | x :: xs => expandLast x :: expandLastList xs

end

/-- Embedding of `jnp.clip(x, lo, hi)` on a scalar entry. -/
def clipQ (x lo hi : ℚ) : ℚ := min (max x lo) hi

/-- A constant rank-2 array of shape `[b, t]` filled with `c`. -/
def constND (b t : ℕ) (c : ℚ) : ND :=
  .a (List.replicate b (.a (List.replicate t (.s c))))

/-! ### The trajectory data model (`TrajectoryNp` fields used by this module) -/

/-- The fields of a trajectory batch consumed by the batch builders. -/
structure TrajNp where
  observations : ND
  actions : ND
  rewards : ND
  returns : ND
  log_probs : ND
  mask : ND

/-- The advantage estimator interface:
`(rewards, returns, values, gamma, n_extra_steps) -> advantages`. -/
def AdvEstimator : Type := ND → ND → ND → ℚ → ℕ → ND

/-! ### `_replay_epochs` and the trajectory-batch-stream requests -/

/-- Embedding of `ActorCriticTrainer._replay_epochs`: asserts `n_replay_epochs == 1`
for on-policy algorithms (`none` = `AssertionError`), then returns
`[-(ep + 1) for ep in range(n_replay_epochs)]`. -/
def replayEpochs (onPolicy : Bool) (nReplayEpochs : ℕ) : Option (List ℤ) :=
  if onPolicy && nReplayEpochs != 1 then none
  else some ((List.range nReplayEpochs).map fun ep => -((ep : ℤ) + 1))

/-- The argument tuple passed to `task.trajectory_batch_stream`;
`none` in an optional field means the argument was not passed
(library default applies). -/
structure SliceRequest where
  batch_size : ℕ
  max_slice_length : ℕ
  min_slice_length : Option ℕ
  epochs : List ℤ
  include_final_state : Option Bool
deriving DecidableEq

/-- The `trajectory_batch_stream` request made by `value_batches_stream`
(source lines 144–150); fails when `_replay_epochs` asserts. -/
def valueStreamRequest (valueBatchSize maxSliceLength addedPolicySliceLength : ℕ)
    (onPolicy : Bool) (nReplayEpochs : ℕ) : Option SliceRequest := do
  let eps ← replayEpochs onPolicy nReplayEpochs
  pure { batch_size := valueBatchSize,
         max_slice_length := maxSliceLength + addedPolicySliceLength,
         min_slice_length := some (1 + addedPolicySliceLength),
         epochs := eps,
         include_final_state := none }

/-- The `trajectory_batch_stream` request made by `policy_batches_stream`
(source lines 197–202); fails when `_replay_epochs` asserts. -/
def policyStreamRequest (policyBatchSize maxSliceLength addedPolicySliceLength : ℕ)
    (onPolicy : Bool) (nReplayEpochs : ℕ) : Option SliceRequest := do
  let eps ← replayEpochs onPolicy nReplayEpochs
  pure { batch_size := policyBatchSize,
         max_slice_length := maxSliceLength + addedPolicySliceLength,
         min_slice_length := none,
         epochs := eps,
         include_final_state := some false }

/-- The `A2CTrainer.on_policy` class attribute. -/
def a2c_on_policy : Bool := true

/-- The `PPOTrainer.on_policy` class attribute. -/
def ppo_on_policy : Bool := true

/-- The `AWRTrainer.on_policy` class attribute. -/
def awr_on_policy : Bool := false

/-- Modelled from the spec: `ActorCriticTrainer.__init__` builds the
supervised value trainer from `value_batches_stream` (whose first draw
evaluates `_replay_epochs`); the spec (§7) states that the on-policy
replay-window violation is a configuration error raised at trainer
construction.  The supervised `Trainer` class itself is not under
`src/`, so construction is modelled as succeeding exactly when the
replay-epoch window is accepted. -/
def construct_actor_critic (onPolicy : Bool) (nReplayEpochs : ℕ) : Option (List ℤ) :=
  replayEpochs onPolicy nReplayEpochs

/-! ### `value_batches_stream` per-batch body (source lines 151–177) -/

/-- The body of `value_batches_stream` for one drawn trajectory batch:
run the value-target model, scale, squeeze the depth axis, estimate
advantages, truncate to the advantage length, and yield
`(observations[:, :length], target_returns[:, :, None] / scale,
mask[:, :length, None])`. -/
def valueBatch (scale γ : ℚ) (nExtraSteps : ℕ) (vmodel : ND → ND)
    (est : AdvEstimator) (traj : TrajNp) : Option (ND × ND × ND) :=
  Option.bind (squeezeAt 2 (map1 (· * scale) (vmodel traj.observations))) fun values =>
  let advantages := est traj.rewards traj.returns values γ nExtraSteps
  Option.bind (shape advantages)[1]? fun length =>
  Option.bind (zip2 (· + ·) (trunc1 length values) advantages) fun target_returns =>
  some (trunc1 length traj.observations,
        map1 (· / scale) (expandLast target_returns),
        expandLast (trunc1 length traj.mask))

/-! ### `policy_batches_stream` per-batch body (source lines 203–213) -/

/-- The body of `policy_batches_stream` for one drawn trajectory batch:
run the value-target model, scale, squeeze the depth axis, validate the
rank and leading dimension of `values`, then delegate to
`policy_inputs` (`pif`). -/
def policy_batches_body {π : Type} (policyBatchSize : ℕ) (scale : ℚ)
    (vmodel : ND → ND) (pif : TrajNp → ND → Option π) (traj : TrajNp) : Option π :=
  Option.bind (squeezeAt 2 (map1 (· * scale) (vmodel traj.observations))) fun values =>
  if (shape values).length ≠ 2 then none
  else if (shape values).headD 0 ≠ policyBatchSize then none
  else pif traj values

/-! ### `AdvantageBasedActorCriticTrainer.policy_inputs` (source lines 322–355) -/

/-- Estimate advantages from the live trajectory, truncate
`observations`/`actions`/`log_probs`/`mask` to the advantage length,
and run the shape checks; any failed check (and the
`advantages.shape[1]` access on a rank-<2 estimate) raises. -/
def policy_inputs (γ : ℚ) (nExtraSteps : ℕ) (est : AdvEstimator)
    (traj : TrajNp) (values : ND) : Option (ND × ND × ND × ND × ND) :=
  let advantages := est traj.rewards traj.returns values γ nExtraSteps
  Option.bind (shape advantages)[1]? fun length =>
  let obs := trunc1 length traj.observations
  let act := trunc1 length traj.actions
  let old_logps := trunc1 length traj.log_probs
  let mask := trunc1 length traj.mask
  if (shape advantages).length ≠ 2 then none
  else if (shape act).take 2 ≠ shape advantages then none
  else if (shape obs).take 2 ≠ shape advantages then none
  else if shape old_logps ≠ shape advantages then none
  else if shape mask ≠ shape advantages then none
  else some (obs, act, advantages, old_logps, mask)

/-! ### The algorithm losses (source lines 412–480) -/

/-- Embedding of `A2CLoss`: `-sum(log_probs * advantages * mask) / sum(mask)`;
`old_log_probs` is deleted unused. -/
def A2CLoss (log_probs advantages old_log_probs mask : ND) : Option ℚ :=
  Option.bind (zip2 (· * ·) log_probs advantages) fun weighted =>
  Option.bind (zip2 (· * ·) weighted mask) fun masked =>
  some (-sumND masked / sumND mask)

/-- Embedding of `PPOLoss(epsilon)`: squeezes the trailing axis of `old_log_probs`,
forms `probs_ratio = exp(new_log_probs - old_log_probs)`, and returns
`-sum(min(ratio * adv, clip(ratio, 1-eps, 1+eps) * adv) * mask) / sum(mask)`.
`rexp` is the external `jnp.exp` primitive. -/
def PPOLoss (epsilon : ℚ) (rexp : ℚ → ℚ)
    (new_log_probs advantages old_log_probs mask : ND) : Option ℚ :=
  Option.bind (squeezeLast old_log_probs) fun old =>
  Option.bind (zip2 (· - ·) new_log_probs old) fun diff =>
  let probs_ratio := map1 rexp diff
  Option.bind (zip2 (· * ·) probs_ratio advantages) fun unclipped_objective =>
  Option.bind (zip2 (· * ·)
    (map1 (fun r => clipQ r (1 - epsilon) (1 + epsilon)) probs_ratio) advantages)
    fun clipped_objective =>
  Option.bind (zip2 min unclipped_objective clipped_objective) fun ppo_objective =>
  Option.bind (zip2 (· * ·) ppo_objective mask) fun masked =>
  some (-sumND masked / sumND mask)

/-- Embedding of `awr_weights(advantages, beta) = exp(advantages / beta)`. -/
def awr_weights (rexp : ℚ → ℚ) (advantages : ND) (beta : ℚ) : ND :=
  map1 (fun adv => rexp (adv / beta)) advantages

/-- Embedding of `AWRLoss(beta, w_max)`:
`weights = minimum(awr_weights(advantages, beta), w_max)` and
`-sum(log_probs * weights * mask) / sum(mask)`; `old_log_probs` is
deleted unused. -/
def AWRLoss (beta w_max : ℚ) (rexp : ℚ → ℚ)
    (log_probs advantages old_log_probs mask : ND) : Option ℚ :=
  let weights := map1 (fun w => min w w_max) (awr_weights rexp advantages beta)
  Option.bind (zip2 (· * ·) log_probs weights) fun weighted =>
  Option.bind (zip2 (· * ·) weighted mask) fun masked =>
  some (-sumND masked / sumND mask)

/-! ### Trainer weight/state slices and `_copy_model_weights_and_state` -/

/-- Python list slice `l[s:e]` (clamped at the list length). -/
def pySlice {α : Type} (s e : ℕ) (l : List α) : List α := (l.take e).drop s

/-- Python slice assignment `l[s:e] = repl` (for `s ≤ e`). -/
def pySliceAssign {α : Type} (s e : ℕ) (l repl : List α) : List α :=
  l.take s ++ repl ++ l.drop e

/-- The slice of a supervised trainer visible to this module:
model weights, model state, and the step counter. -/
structure TrainerSt (α β : Type) where
  weights : List α
  state : List β
  step : ℕ
deriving DecidableEq

/-- Embedding of `_copy_model_weights_and_state(start, end, from_trainer, to_trainer)`
with the default `copy_optimizer_slots=False` (the only form used by
`train_epoch`, so the optimizer-slot branch is not modelled):
`to.weights[start:end] = from.weights[start:end]` and likewise for the
model state. -/
def copyModelWeightsAndState {α β : Type} (s e : ℕ)
    (fromTrainer toTrainer : TrainerSt α β) : TrainerSt α β :=
  { toTrainer with
      weights := pySliceAssign s e toTrainer.weights (pySlice s e fromTrainer.weights),
      state := pySliceAssign s e toTrainer.state (pySlice s e fromTrainer.state) }

/-! ### `ActorCriticTrainer.train_epoch` (source lines 215–267) -/

/-- Static configuration read by `train_epoch`. -/
structure ACConfig where
  nSharedLayers : ℕ
  epoch : ℕ
  valueTrainStepsPerEpoch : ℕ
  valueEvalsPerEpoch : ℕ
  policyTrainStepsPerEpoch : ℕ
  policyEvalsPerEpoch : ℕ
deriving DecidableEq

/-- The mutable state touched by `train_epoch`: the two supervised
trainers, the value-target (eval) model, and the policy collect
model's state. -/
structure ACState (α β : Type) where
  policyTrainer : TrainerSt α β
  valueTrainer : TrainerSt α β
  valueEvalWeights : List α
  valueEvalState : List β
  policyCollectState : List β
deriving DecidableEq

/-- One call of `ActorCriticTrainer.train_epoch`, parameterized over the
external collaborators: `remainingEvals` is
`rl_training.remaining_evals(step, epoch, steps_per_epoch,
evals_per_epoch)`, and `valueTrainEpoch` / `policyTrainEpoch` are one
`train_epoch(...)` round of the respective supervised trainer. -/
def train_epoch {α β : Type} (cfg : ACConfig)
    (remainingEvals : ℕ → ℕ → ℕ → ℕ → ℕ)
    (valueTrainEpoch policyTrainEpoch : TrainerSt α β → TrainerSt α β)
    (st : ACState α β) : ACState α β :=
  -- Copy policy state accumulated during data collection to the trainer.
  let policyTrainer1 := { st.policyTrainer with state := st.policyCollectState }
  -- Copy policy weights and state to value trainer.
  let valueTrainer1 :=
    if 0 < cfg.nSharedLayers then
      copyModelWeightsAndState 0 cfg.nSharedLayers policyTrainer1 st.valueTrainer
    else st.valueTrainer
  -- Update the target value network.
  let evalWeights1 := valueTrainer1.weights
  let evalState1 := valueTrainer1.state
  let nValueEvals := remainingEvals valueTrainer1.step cfg.epoch
      cfg.valueTrainStepsPerEpoch cfg.valueEvalsPerEpoch
  let valueTrainer2 := valueTrainEpoch^[nValueEvals] valueTrainer1
  -- Copy value weights and state to policy trainer.
  let policyTrainer2 :=
    if 0 < cfg.nSharedLayers then
      copyModelWeightsAndState 0 cfg.nSharedLayers valueTrainer2 policyTrainer1
    else policyTrainer1
  let nPolicyEvals := remainingEvals policyTrainer2.step cfg.epoch
      cfg.policyTrainStepsPerEpoch cfg.policyEvalsPerEpoch
  -- Check if there was a restart after value training finishes and policy not.
  let stoppedAfterValue := nValueEvals == 0 && decide (nPolicyEvals < cfg.policyEvalsPerEpoch)
  let shouldCopyWeights := decide (0 < cfg.nSharedLayers) && !stoppedAfterValue
  let policyTrainer3 :=
    if shouldCopyWeights then
      copyModelWeightsAndState 0 cfg.nSharedLayers valueTrainer2 policyTrainer2
    else policyTrainer2
  -- Update the target value network.
  let evalWeights2 := valueTrainer2.weights
  let evalState2 := valueTrainer2.state
  let policyTrainer4 := policyTrainEpoch^[nPolicyEvals] policyTrainer3
  { policyTrainer := policyTrainer4,
    valueTrainer := valueTrainer2,
    valueEvalWeights := evalWeights2,
    valueEvalState := evalState2,
    policyCollectState := st.policyCollectState }

/-! ### A concrete resume scenario for `train_epoch` -/

/-- Resume scenario configuration: one shared layer, one value
evaluation and two policy evaluations per epoch. -/
def resumeCfg : ACConfig :=
  { nSharedLayers := 1, epoch := 0,
    valueTrainStepsPerEpoch := 10, valueEvalsPerEpoch := 1,
    policyTrainStepsPerEpoch := 10, policyEvalsPerEpoch := 2 }

/-- Resume scenario `remaining_evals`: a trainer whose persisted step
counter has reached 100 has nothing left this epoch; otherwise one
evaluation remains. -/
def resumeRemainingEvals : ℕ → ℕ → ℕ → ℕ → ℕ :=
  fun step _ _ _ => if 100 ≤ step then 0 else 1

/-- Resume scenario state: value training already finished (step 100),
policy training partially done (step 0); the shared slice holds weight
5 in the policy trainer and weight 7 in the value trainer. -/
def resumeState : ACState ℤ ℤ :=
  { policyTrainer := { weights := [5], state := [50], step := 0 },
    valueTrainer := { weights := [7], state := [70], step := 100 },
    valueEvalWeights := [], valueEvalState := [],
    policyCollectState := [50] }

/-! ### Helper lemmas on the array model -/

/-- Structural induction for nested arrays. -/
theorem ND.ind {P : ND → Prop} (hs : ∀ q, P (.s q))
    (ha : ∀ xs, (∀ x ∈ xs, P x) → P (.a xs)) : ∀ x, P x
  | .s q => hs q
  | .a xs => ha xs (fun x hx => ND.ind hs ha x)
termination_by x => sizeOf x
decreasing_by
  simp_wf
  have := List.sizeOf_lt_of_mem hx
  omega

theorem map1List_eq_map (f : ℚ → ℚ) (xs : List ND) :
    map1List f xs = xs.map (map1 f) := by
  induction xs with
  | nil => simp [map1List]
  | cons y ys ih => simp [map1List, ih]

theorem map1_map1 (f g : ℚ → ℚ) : ∀ x, map1 f (map1 g x) = map1 (fun q => f (g q)) x := by
  intro x
  induction x using ND.ind with
  | hs q => simp [map1]
  | ha xs ih =>
    simp only [map1, map1List_eq_map, List.map_map]
    congr 1
    exact List.map_congr_left fun x hx => ih x hx

theorem map1_id : ∀ x, map1 (fun q => q) x = x := by
  intro x
  induction x using ND.ind with
  | hs q => simp [map1]
  | ha xs ih =>
    simp only [map1, map1List_eq_map]
    congr 1
    calc xs.map (map1 fun q => q) = xs.map id := List.map_congr_left fun x hx => ih x hx
    _ = xs := List.map_id xs

theorem zip2List_self (f : ℚ → ℚ → ℚ) (xs : List ND)
    (h : ∀ x ∈ xs, zip2 f x x = some (map1 (fun q => f q q) x)) :
    zip2List f xs xs = some (map1List (fun q => f q q) xs) := by
  induction xs with
  | nil => simp [zip2List, map1List]
  | cons y ys ih =>
    simp [zip2List, map1List, h y (by simp), ih (fun x hx => h x (by simp [hx]))]

theorem zip2_self (f : ℚ → ℚ → ℚ) : ∀ x, zip2 f x x = some (map1 (fun q => f q q) x) := by
  intro x
  induction x using ND.ind with
  | hs q => simp [zip2, map1]
  | ha xs ih => simp [zip2, map1, zip2List_self f xs ih]

theorem zip2List_map1_const_left (f : ℚ → ℚ → ℚ) (c : ℚ) :
    ∀ xs ys, sameShapeList xs ys = true →
    (∀ x ∈ xs, ∀ y, sameShape x y = true →
      zip2 f (map1 (fun _ => c) x) y = some (map1 (fun v => f c v) y)) →
    zip2List f (map1List (fun _ => c) xs) ys = some (map1List (fun v => f c v) ys)
  | [], [], _, _ => by simp [zip2List, map1List]
  | x :: xs, y :: ys, hsh, ih => by
    simp only [sameShapeList, Bool.and_eq_true] at hsh
    have h1 := ih x (by simp) y hsh.1
    have h2 := zip2List_map1_const_left f c xs ys hsh.2
      (fun z hz => ih z (by simp [hz]))
    simp [zip2List, map1List, h1, h2]
  | [], _ :: _, hsh, _ => by simp [sameShapeList] at hsh
  | _ :: _, [], hsh, _ => by simp [sameShapeList] at hsh

theorem zip2_map1_const_left (f : ℚ → ℚ → ℚ) (c : ℚ) :
    ∀ x y, sameShape x y = true →
    zip2 f (map1 (fun _ => c) x) y = some (map1 (fun v => f c v) y) := by
  intro x
  induction x using ND.ind with
  | hs q =>
    intro y hy
    cases y with
    | s r => simp [zip2, map1]
    | a ys => simp [sameShape] at hy
  | ha xs ih =>
    intro y hy
    cases y with
    | s r => simp [sameShape] at hy
    | a ys =>
      simp only [sameShape] at hy
      simp [zip2, map1, zip2List_map1_const_left f c xs ys hy ih]

theorem sum_map1_mul (c : ℚ) : ∀ x, sumND (map1 (fun v => c * v) x) = c * sumND x := by
  intro x
  induction x using ND.ind with
  | hs q => simp [map1, sumND]
  | ha xs ih =>
    simp only [map1, sumND]
    induction xs with
    | nil => simp [map1List, sumNDList]
    | cons y ys ihl =>
      simp only [map1List, sumNDList, ih y (by simp),
        ihl (fun x hx => ih x (by simp [hx]))]
      ring

theorem hasShape_a_inv {x : ND} {n : ℕ} {ns : List ℕ}
    (h : hasShape x (n :: ns) = true) :
    ∃ xs, x = ND.a xs ∧ xs.length = n ∧ hasShapeAll xs ns = true := by
  cases x with
  | s q => simp [hasShape] at h
  | a xs =>
    simp only [hasShape, Bool.and_eq_true, beq_iff_eq] at h
    exact ⟨xs, rfl, h.1, h.2⟩

theorem hasShape_s_inv {q : ℚ} {sh : List ℕ} (h : hasShape (ND.s q) sh = true) :
    sh = [] := by
  cases sh with
  | nil => rfl
  | cons n ns => simp [hasShape] at h

theorem hasShapeAll_mem {xs : List ND} {ns : List ℕ}
    (h : hasShapeAll xs ns = true) : ∀ x ∈ xs, hasShape x ns = true := by
  induction xs with
  | nil => simp
  | cons y ys ih =>
    simp only [hasShapeAll, Bool.and_eq_true] at h
    intro x hx
    rcases List.mem_cons.mp hx with rfl | hx
    · exact h.1
    · exact ih h.2 x hx

theorem hasShapeAll_of_mem {xs : List ND} {ns : List ℕ}
    (h : ∀ x ∈ xs, hasShape x ns = true) : hasShapeAll xs ns = true := by
  induction xs with
  | nil => simp [hasShapeAll]
  | cons y ys ih =>
    simp only [hasShapeAll, Bool.and_eq_true]
    exact ⟨h y (by simp), ih fun x hx => h x (by simp [hx])⟩

theorem sameShapeList_of_forall {xs ys : List ND}
    (hlen : xs.length = ys.length)
    (h : ∀ p ∈ xs.zip ys, sameShape p.1 p.2 = true) :
    sameShapeList xs ys = true := by
  induction xs generalizing ys with
  | nil => cases ys with
    | nil => simp [sameShapeList]
    | cons _ _ => simp at hlen
  | cons x xs ih =>
    cases ys with
    | nil => simp at hlen
    | cons y ys =>
      simp only [sameShapeList, Bool.and_eq_true]
      refine ⟨h (x, y) (by simp [List.zip_cons_cons]), ih (by simpa using hlen) ?_⟩
      intro p hp
      exact h p (by simp [List.zip_cons_cons, hp])

theorem hasShape_sameShape : ∀ (x : ND) (sh : List ℕ) (y : ND),
    hasShape x sh = true → hasShape y sh = true → sameShape x y = true := by
  intro x
  induction x using ND.ind with
  | hs q =>
    intro sh y h1 h2
    have : sh = [] := hasShape_s_inv h1
    subst this
    cases y with
    | s r => simp [sameShape]
    | a ys => simp [hasShape] at h2
  | ha xs ih =>
    intro sh y h1 h2
    cases sh with
    | nil => simp [hasShape] at h1
    | cons n ns =>
      obtain ⟨ys, rfl, hylen, hyall⟩ := hasShape_a_inv h2
      simp only [hasShape, Bool.and_eq_true, beq_iff_eq] at h1
      simp only [sameShape]
      refine sameShapeList_of_forall (by omega) ?_
      intro p hp
      have hx := List.of_mem_zip hp
      exact ih p.1 hx.1 ns p.2 (hasShapeAll_mem h1.2 p.1 hx.1)
        (hasShapeAll_mem hyall p.2 hx.2)

theorem constND_hasShape (b t : ℕ) (c : ℚ) :
    hasShape (constND b t c) [b, t] = true := by
  simp only [constND, hasShape, List.length_replicate, beq_self_eq_true, Bool.true_and]
  refine hasShapeAll_of_mem fun x hx => ?_
  rw [List.eq_of_mem_replicate hx]
  simp only [hasShape, List.length_replicate, beq_self_eq_true, Bool.true_and]
  refine hasShapeAll_of_mem fun y hy => ?_
  rw [List.eq_of_mem_replicate hy]
  simp [hasShape]

theorem map1_constND (f : ℚ → ℚ) (b t : ℕ) (c : ℚ) :
    map1 f (constND b t c) = constND b t (f c) := by
  simp only [constND, map1, map1List_eq_map, List.map_replicate]

theorem map1_const_of_hasShape {y : ND} {b t : ℕ} (c : ℚ)
    (h : hasShape y [b, t] = true) : map1 (fun _ => c) y = constND b t c := by
  obtain ⟨rows, rfl, hlen, hall⟩ := hasShape_a_inv h
  simp only [map1, map1List_eq_map, constND]
  congr 1
  subst hlen
  have : ∀ r ∈ rows, map1 (fun _ => c) r = ND.a (List.replicate t (ND.s c)) := by
    intro r hr
    obtain ⟨es, rfl, helen, heall⟩ := hasShape_a_inv (hasShapeAll_mem hall r hr)
    simp only [map1, map1List_eq_map]
    congr 1
    subst helen
    have : ∀ e ∈ es, map1 (fun _ => c) e = ND.s c := by
      intro e he
      have hse := hasShapeAll_mem heall e he
      cases e with
      | s q => simp [map1]
      | a zs => simp [hasShape] at hse
    calc es.map (map1 fun _ => c) = es.map (fun _ => ND.s c) :=
          List.map_congr_left this
    _ = List.replicate es.length (ND.s c) := List.map_const' es (ND.s c)
  calc rows.map (map1 fun _ => c)
      = rows.map (fun _ => ND.a (List.replicate t (ND.s c))) := List.map_congr_left this
  _ = List.replicate rows.length _ := List.map_const' rows _

theorem shape_cons_of_hasShape {x : ND} {n : ℕ} {ns : List ℕ}
    (h : hasShape x (n :: ns) = true) : ∃ tl, shape x = n :: tl := by
  obtain ⟨xs, rfl, hlen, hall⟩ := hasShape_a_inv h
  cases xs with
  | nil =>
    have hn : n = 0 := by simpa using hlen.symm
    subst hn
    exact ⟨[], rfl⟩
  | cons y ys =>
    have hn : ys.length + 1 = n := by simpa using hlen
    exact ⟨shape y, by simp [shape, hn]⟩

theorem shape_get1_of_hasShape {x : ND} {b L : ℕ} {ns : List ℕ}
    (h : hasShape x (b :: L :: ns) = true) (hb : 0 < b) :
    (shape x)[1]? = some L := by
  obtain ⟨xs, rfl, hlen, hall⟩ := hasShape_a_inv h
  cases xs with
  | nil => simp at hlen; omega
  | cons x0 rest =>
    have h0 : hasShape x0 (L :: ns) = true := hasShapeAll_mem hall x0 (by simp)
    obtain ⟨tl, htl⟩ := shape_cons_of_hasShape h0
    simp [shape, htl]

theorem trunc1_shape {x : ND} {b t : ℕ} {ns : List ℕ} (L : ℕ)
    (h : hasShape x (b :: t :: ns) = true) :
    hasShape (trunc1 L x) (b :: min L t :: ns) = true := by
  obtain ⟨rows, rfl, hlen, hall⟩ := hasShape_a_inv h
  simp only [trunc1, hasShape, List.length_map, hlen, beq_self_eq_true, Bool.true_and]
  refine hasShapeAll_of_mem fun r hr => ?_
  obtain ⟨r0, hr0, rfl⟩ := List.mem_map.mp hr
  have h0 := hasShapeAll_mem hall r0 hr0
  obtain ⟨es, rfl, helen, heall⟩ := hasShape_a_inv h0
  simp only [hasShape, List.length_take, helen, beq_self_eq_true, Bool.true_and]
  exact hasShapeAll_of_mem fun e he =>
    hasShapeAll_mem heall e (List.mem_of_mem_take he)

theorem trunc1_full {x : ND} {b t : ℕ} {ns : List ℕ}
    (h : hasShape x (b :: t :: ns) = true) : trunc1 t x = x := by
  obtain ⟨rows, rfl, hlen, hall⟩ := hasShape_a_inv h
  simp only [trunc1]
  congr 1
  have : ∀ r ∈ rows,
      (match r with
       | .s q => ND.s q
       | .a ys => ND.a (ys.take t)) = r := by
    intro r hr
    obtain ⟨es, rfl, helen, _⟩ := hasShape_a_inv (hasShapeAll_mem hall r hr)
    simp only
    rw [← helen, List.take_length]
  calc rows.map _ = rows.map id := List.map_congr_left this
  _ = rows := List.map_id rows

theorem zip2List_total (f : ℚ → ℚ → ℚ) :
    ∀ xs ys, sameShapeList xs ys = true →
    (∀ x ∈ xs, ∀ y, sameShape x y = true → ∃ z, zip2 f x y = some z) →
    ∃ zs, zip2List f xs ys = some zs
  | [], [], _, _ => ⟨[], by simp [zip2List]⟩
  | x :: xs, y :: ys, hsh, ih => by
    simp only [sameShapeList, Bool.and_eq_true] at hsh
    obtain ⟨z, hz⟩ := ih x (by simp) y hsh.1
    obtain ⟨zs, hzs⟩ := zip2List_total f xs ys hsh.2 (fun w hw => ih w (by simp [hw]))
    exact ⟨z :: zs, by simp [zip2List, hz, hzs]⟩
  | [], _ :: _, hsh, _ => by simp [sameShapeList] at hsh
  | _ :: _, [], hsh, _ => by simp [sameShapeList] at hsh

theorem zip2_total (f : ℚ → ℚ → ℚ) : ∀ x y, sameShape x y = true →
    ∃ z, zip2 f x y = some z := by
  intro x
  induction x using ND.ind with
  | hs q =>
    intro y hy
    cases y with
    | s r => exact ⟨.s (f q r), by simp [zip2]⟩
    | a ys => simp [sameShape] at hy
  | ha xs ih =>
    intro y hy
    cases y with
    | s r => simp [sameShape] at hy
    | a ys =>
      simp only [sameShape] at hy
      obtain ⟨zs, hzs⟩ := zip2List_total f xs ys hy ih
      exact ⟨.a zs, by simp [zip2, hzs]⟩

theorem squeezeAt1_none_of_shape {x : ND} {b t : ℕ}
    (hx : shape x = [b, t]) (hb : 0 < b) (ht : t ≠ 1) :
    squeezeAt 1 x = none := by
  cases x with
  | s q => simp [shape] at hx
  | a xs =>
    cases xs with
    | nil => simp [shape] at hx
    | cons x0 rest =>
      simp only [shape] at hx
      have hx0 : shape x0 = [t] := by
        have := List.tail_eq_of_cons_eq hx
        simpa using this
      have h0 : squeezeAt 0 x0 = none := by
        cases x0 with
        | s q => simp [shape] at hx0
        | a ys =>
          cases ys with
          | nil => simp [squeezeAt]
          | cons y0 yrest =>
            cases yrest with
            | nil =>
              simp only [shape] at hx0
              injection hx0 with h1 h2
              simp at h1
              omega
            | cons y1 yrest2 => simp [squeezeAt]
      simp [squeezeAt, squeezeAtList, h0]

theorem pySlice_length {α : Type} (s e : ℕ) (l : List α) (hse : s ≤ e)
    (he : e ≤ l.length) : (pySlice s e l).length = e - s := by
  simp only [pySlice, List.length_drop, List.length_take]
  omega

theorem pySlice_pySliceAssign {α : Type} (s e : ℕ) (l r : List α) (hse : s ≤ e)
    (hl : e ≤ l.length) (hr : r.length = e - s) :
    pySlice s e (pySliceAssign s e l r) = r := by
  unfold pySlice pySliceAssign
  have hA : (l.take s ++ r).length = e := by simp [List.length_take]; omega
  rw [List.take_append_eq_append_take, hA, Nat.sub_self]
  simp only [List.take_zero, List.append_nil]
  rw [List.take_append_eq_append_take, List.take_take]
  have h1 : min e s = s := by omega
  have h2 : (l.take s).length = s := by simp [List.length_take]; omega
  rw [h1, h2]
  have h3 : r.take (e - s) = r := List.take_of_length_le (by omega)
  rw [h3, List.drop_append_eq_append_drop]
  have h5 : (l.take s).drop s = [] := List.drop_eq_nil_of_le (by simp)
  rw [h5, h2, Nat.sub_self, List.drop_zero, List.nil_append]

theorem pySliceAssign_getElem_lt {α : Type} (s e i : ℕ) (l r : List α)
    (hi : i < s) (hs : s ≤ l.length) :
    (pySliceAssign s e l r)[i]? = l[i]? := by
  unfold pySliceAssign
  rw [List.getElem?_append_left (by simp [List.length_take]; omega),
    List.getElem?_append_left (by simp [List.length_take]; omega)]
  exact List.getElem?_take_of_lt hi

theorem pySliceAssign_getElem_ge {α : Type} (s e i : ℕ) (l r : List α)
    (hse : s ≤ e) (he : e ≤ l.length) (hr : r.length = e - s) (hi : e ≤ i) :
    (pySliceAssign s e l r)[i]? = l[i]? := by
  unfold pySliceAssign
  have hlen : (l.take s ++ r).length = e := by simp [List.length_take]; omega
  rw [List.getElem?_append_right (by rw [hlen]; omega), hlen]
  rw [List.getElem?_drop]
  congr 1
  omega

theorem pySliceAssign_self {α : Type} (s e : ℕ) (l : List α) (hse : s ≤ e)
    (he : e ≤ l.length) : pySliceAssign s e l (pySlice s e l) = l := by
  unfold pySliceAssign pySlice
  have h1 : l.take s = (l.take e).take s := by
    rw [List.take_take]
    congr 1
    omega
  rw [h1, List.take_append_drop, List.take_append_drop]

/-- Copying the shared slice from the source back over a destination
whose slice was just synchronized from that source restores the
destination exactly. -/
theorem copy_back {α β : Type} (n : ℕ) (p v : TrainerSt α β)
    (hpw : n ≤ p.weights.length) (hps : n ≤ p.state.length)
    (hvw : n ≤ v.weights.length) (hvs : n ≤ v.state.length) :
    copyModelWeightsAndState 0 n (copyModelWeightsAndState 0 n p v) p = p := by
  have hw : pySlice 0 n (copyModelWeightsAndState 0 n p v).weights
      = pySlice 0 n p.weights :=
    pySlice_pySliceAssign 0 n v.weights _ (by omega) hvw
      (pySlice_length 0 n _ (by omega) hpw)
  have hs : pySlice 0 n (copyModelWeightsAndState 0 n p v).state
      = pySlice 0 n p.state :=
    pySlice_pySliceAssign 0 n v.state _ (by omega) hvs
      (pySlice_length 0 n _ (by omega) hps)
  show ({ p with
      weights := pySliceAssign 0 n p.weights
        (pySlice 0 n (copyModelWeightsAndState 0 n p v).weights),
      state := pySliceAssign 0 n p.state
        (pySlice 0 n (copyModelWeightsAndState 0 n p v).state) } : TrainerSt α β) = p
  rw [hw, hs, pySliceAssign_self 0 n p.weights (by omega) hpw,
    pySliceAssign_self 0 n p.state (by omega) hps]

theorem pySliceAssign_idem {α : Type} (s e : ℕ) (l r : List α) (hse : s ≤ e)
    (hl : e ≤ l.length) (hr : r.length = e - s) :
    pySliceAssign s e (pySliceAssign s e l r) r = pySliceAssign s e l r := by
  unfold pySliceAssign
  have h2 : (l.take s).length = s := by simp [List.length_take]; omega
  have hA : (l.take s ++ r).length = e := by simp [List.length_take]; omega
  have h1 : (l.take s ++ r ++ l.drop e).take s = l.take s := by
    rw [List.take_append_eq_append_take, hA]
    have hz : s - e = 0 := by omega
    rw [hz]
    simp only [List.take_zero, List.append_nil]
    rw [List.take_append_eq_append_take, h2, Nat.sub_self]
    simp only [List.take_zero, List.append_nil, List.take_take]
    congr 1
    omega
  have h3 : (l.take s ++ r ++ l.drop e).drop e = l.drop e := by
    rw [List.drop_append_eq_append_drop, hA, Nat.sub_self, List.drop_zero]
    have h4 : (l.take s ++ r).drop e = [] := List.drop_eq_nil_of_le (by omega)
    rw [h4, List.nil_append]
  rw [h1, h3]

/-! ### Claim theorems -/

/-- C10: the A2C and AWR losses are independent of `old_log_probs` —
for any two inputs agreeing on `log_probs`, `advantages` and `mask`
but with arbitrary `old_log_probs`, `A2CLoss` and `AWRLoss` return
equal values. -/
theorem losses_ignore_old_log_probs :
    ∀ (log_probs advantages mask old1 old2 : ND) (beta w_max : ℚ) (rexp : ℚ → ℚ),
      A2CLoss log_probs advantages old1 mask = A2CLoss log_probs advantages old2 mask ∧
      AWRLoss beta w_max rexp log_probs advantages old1 mask
        = AWRLoss beta w_max rexp log_probs advantages old2 mask :=
  fun _ _ _ _ _ _ _ _ => ⟨rfl, rfl⟩

/-- C3: configuring an on-policy algorithm (A2C, PPO) with a replay
window size different from 1 is a fatal configuration error raised at
trainer construction (spec-modelled construction-time eagerness; the
assertion itself is `_replay_epochs`). -/
theorem onpolicy_replay_window_fatal (n : ℕ) (h : n ≠ 1) :
    construct_actor_critic a2c_on_policy n = none ∧
    construct_actor_critic ppo_on_policy n = none := by
  constructor <;>
    simp [construct_actor_critic, replayEpochs, a2c_on_policy, ppo_on_policy, h]

/-- Witness for C3 at `n_replay_epochs = 2`. -/
theorem onpolicy_replay_window_fatal_witness :
    construct_actor_critic a2c_on_policy 2 = none ∧
    construct_actor_critic ppo_on_policy 2 = none :=
  onpolicy_replay_window_fatal 2 (by decide)

/-- C5: both batch builders request `max_slice_length = base +
added_policy_slice_length` and draw from the same replay-epoch window;
the value stream additionally requests `min_slice_length = 1 +
added_policy_slice_length`, and the policy stream requests
`include_final_state=False` with the same slice-length composition. -/
theorem slice_length_requests (vbs pbs msl apsl : ℕ) (onp : Bool) (nre : ℕ)
    (eps : List ℤ) (h : replayEpochs onp nre = some eps) :
    valueStreamRequest vbs msl apsl onp nre = some
      { batch_size := vbs, max_slice_length := msl + apsl,
        min_slice_length := some (1 + apsl), epochs := eps,
        include_final_state := none } ∧
    policyStreamRequest pbs msl apsl onp nre = some
      { batch_size := pbs, max_slice_length := msl + apsl,
        min_slice_length := none, epochs := eps,
        include_final_state := some false } := by
  constructor <;> simp [valueStreamRequest, policyStreamRequest, h]

/-- Witness for C5: an off-policy configuration with a two-epoch replay
window. -/
theorem slice_length_requests_witness :
    valueStreamRequest 64 4 2 false 2 = some
      { batch_size := 64, max_slice_length := 4 + 2,
        min_slice_length := some (1 + 2), epochs := [-1, -2],
        include_final_state := none } ∧
    policyStreamRequest 32 4 2 false 2 = some
      { batch_size := 32, max_slice_length := 4 + 2,
        min_slice_length := none, epochs := [-1, -2],
        include_final_state := some false } :=
  slice_length_requests 64 32 4 2 false 2 [-1, -2] (by decide)

/-- C2: in `train_epoch` with `n_shared_layers > 0`, when value
training has zero remaining evaluations (`n_value_evals = 0`) and the
policy trainer's remaining evaluations are fewer than the full
per-epoch count, the policy trainer's shared slice is not overwritten
from the value trainer before policy training runs: policy training
starts from exactly the collect-state-updated policy trainer.  (The
conditional value→policy copy is skipped; the preceding unconditional
copy at source lines 241–244 restores content that was synchronized
from the policy trainer at the start of the epoch and the value
trainer ran zero training rounds, so it changes nothing.) -/
theorem train_epoch_skip_value_to_policy_copy {α β : Type} (cfg : ACConfig)
    (rem : ℕ → ℕ → ℕ → ℕ → ℕ)
    (vte pte : TrainerSt α β → TrainerSt α β) (st : ACState α β)
    (hn : 0 < cfg.nSharedLayers)
    (hpw : cfg.nSharedLayers ≤ st.policyTrainer.weights.length)
    (hps : cfg.nSharedLayers ≤ st.policyCollectState.length)
    (hvw : cfg.nSharedLayers ≤ st.valueTrainer.weights.length)
    (hvs : cfg.nSharedLayers ≤ st.valueTrainer.state.length)
    (hv : rem st.valueTrainer.step cfg.epoch cfg.valueTrainStepsPerEpoch
      cfg.valueEvalsPerEpoch = 0)
    (hp : rem st.policyTrainer.step cfg.epoch cfg.policyTrainStepsPerEpoch
      cfg.policyEvalsPerEpoch < cfg.policyEvalsPerEpoch) :
    (train_epoch cfg rem vte pte st).policyTrainer
      = pte^[rem st.policyTrainer.step cfg.epoch cfg.policyTrainStepsPerEpoch
          cfg.policyEvalsPerEpoch]
        { st.policyTrainer with state := st.policyCollectState } := by
  have hback := copy_back cfg.nSharedLayers
    { st.policyTrainer with state := st.policyCollectState } st.valueTrainer
    hpw hps hvw hvs
  simp only [train_epoch, if_pos hn]
  have hstep : (copyModelWeightsAndState 0 cfg.nSharedLayers
      { st.policyTrainer with state := st.policyCollectState }
      st.valueTrainer).step = st.valueTrainer.step := rfl
  rw [hstep, hv, Function.iterate_zero_apply, hback]
  have hpstep : ({ st.policyTrainer with state := st.policyCollectState }
      : TrainerSt α β).step = st.policyTrainer.step := rfl
  rw [hpstep]
  rw [if_neg ?_]
  simp only [Nat.zero_eq, beq_self_eq_true, Bool.true_and, decide_eq_true hp,
    Bool.not_true, Bool.and_false, Bool.false_eq_true, not_false_eq_true]

/-- Witness for C2 on the concrete resume scenario. -/
theorem train_epoch_skip_value_to_policy_copy_witness :
    (train_epoch resumeCfg resumeRemainingEvals id id resumeState).policyTrainer
      = TrainerSt.mk [5] [50] 0 := by
  have h := train_epoch_skip_value_to_policy_copy resumeCfg resumeRemainingEvals
    id id resumeState (by decide) (by decide) (by decide) (by decide) (by decide)
    (by decide) (by decide)
  rw [h]
  decide

/-- C6: after `_copy_model_weights_and_state(start, end, from, to)`, the
destination's weight and state slices `[start, end)` equal the source's
slices at the time of copy, entries outside the slice are unchanged,
and the copy is idempotent. -/
theorem weight_state_slice_copy {α β : Type} (s e : ℕ)
    (ft tt : TrainerSt α β) (hse : s ≤ e)
    (hfw : e ≤ ft.weights.length) (htw : e ≤ tt.weights.length)
    (hfs : e ≤ ft.state.length) (hts : e ≤ tt.state.length) :
    pySlice s e (copyModelWeightsAndState s e ft tt).weights = pySlice s e ft.weights ∧
    pySlice s e (copyModelWeightsAndState s e ft tt).state = pySlice s e ft.state ∧
    (∀ i, i < s ∨ e ≤ i →
      (copyModelWeightsAndState s e ft tt).weights[i]? = tt.weights[i]? ∧
      (copyModelWeightsAndState s e ft tt).state[i]? = tt.state[i]?) ∧
    copyModelWeightsAndState s e ft (copyModelWeightsAndState s e ft tt)
      = copyModelWeightsAndState s e ft tt := by
  have hwlen : (pySlice s e ft.weights).length = e - s := pySlice_length s e _ hse hfw
  have hslen : (pySlice s e ft.state).length = e - s := pySlice_length s e _ hse hfs
  refine ⟨?_, ?_, ?_, ?_⟩
  · exact pySlice_pySliceAssign s e tt.weights _ hse htw hwlen
  · exact pySlice_pySliceAssign s e tt.state _ hse hts hslen
  · intro i hi
    rcases hi with hi | hi
    · exact ⟨pySliceAssign_getElem_lt s e i _ _ hi (by omega),
        pySliceAssign_getElem_lt s e i _ _ hi (by omega)⟩
    · exact ⟨pySliceAssign_getElem_ge s e i _ _ hse htw hwlen hi,
        pySliceAssign_getElem_ge s e i _ _ hse hts hslen hi⟩
  · simp only [copyModelWeightsAndState]
    congr 1
    · exact pySliceAssign_idem s e tt.weights _ hse htw hwlen
    · exact pySliceAssign_idem s e tt.state _ hse hts hslen

/-- Witness for C6 on concrete trainers: copying slice `[0, 2)`. -/
theorem weight_state_slice_copy_witness :
    pySlice 0 2 (copyModelWeightsAndState 0 2
        (TrainerSt.mk [1, 2, 3] [4, 5, 6] 0) (TrainerSt.mk [9, 9, 9] [8, 8, 8] 1)).weights
      = pySlice 0 2 ([1, 2, 3] : List ℤ) ∧
    (copyModelWeightsAndState 0 2
        (TrainerSt.mk ([1, 2, 3] : List ℤ) ([4, 5, 6] : List ℤ) 0)
        (TrainerSt.mk [9, 9, 9] [8, 8, 8] 1)).weights[2]? = some 9 ∧
    copyModelWeightsAndState 0 2
        (TrainerSt.mk ([1, 2, 3] : List ℤ) ([4, 5, 6] : List ℤ) 0)
        (copyModelWeightsAndState 0 2 (TrainerSt.mk [1, 2, 3] [4, 5, 6] 0)
          (TrainerSt.mk [9, 9, 9] [8, 8, 8] 1))
      = copyModelWeightsAndState 0 2 (TrainerSt.mk [1, 2, 3] [4, 5, 6] 0)
          (TrainerSt.mk [9, 9, 9] [8, 8, 8] 1) := by
  have h := weight_state_slice_copy 0 2
    (TrainerSt.mk ([1, 2, 3] : List ℤ) ([4, 5, 6] : List ℤ) 0)
    (TrainerSt.mk [9, 9, 9] [8, 8, 8] 1)
    (by decide) (by decide) (by decide) (by decide) (by decide)
  exact ⟨h.1, by
    have h2 := (h.2.2.1 2 (Or.inr (by decide))).1
    rw [h2]
    decide, h.2.2.2⟩

/-- C4: shape-contract violations abort batch construction:
`policy_batches_stream` raises when the squeezed values are not rank 2
or their leading dimension differs from the policy batch size, and the
advantage-based `policy_inputs` raises when the advantages are not
rank 2 or when the (truncated) actions/observations' first two
dimensions, or the full shapes of old log-probs or mask, differ from
`advantages.shape`; no batch is yielded in any of these cases. -/
theorem shape_contract_fatal :
    (∀ (π : Type) (pbs : ℕ) (scale : ℚ) (vmodel : ND → ND)
        (pif : TrajNp → ND → Option π) (traj : TrajNp) (values : ND),
      squeezeAt 2 (map1 (· * scale) (vmodel traj.observations)) = some values →
      (shape values).length ≠ 2 →
      policy_batches_body pbs scale vmodel pif traj = none) ∧
    (∀ (π : Type) (pbs : ℕ) (scale : ℚ) (vmodel : ND → ND)
        (pif : TrajNp → ND → Option π) (traj : TrajNp) (values : ND),
      squeezeAt 2 (map1 (· * scale) (vmodel traj.observations)) = some values →
      (shape values).headD 0 ≠ pbs →
      policy_batches_body pbs scale vmodel pif traj = none) ∧
    (∀ (γ : ℚ) (nExtraSteps : ℕ) (est : AdvEstimator) (traj : TrajNp) (values : ND),
      (shape (est traj.rewards traj.returns values γ nExtraSteps)).length ≠ 2 →
      policy_inputs γ nExtraSteps est traj values = none) ∧
    (∀ (γ : ℚ) (nExtraSteps : ℕ) (est : AdvEstimator) (traj : TrajNp) (values : ND)
        (a b : ℕ),
      shape (est traj.rewards traj.returns values γ nExtraSteps) = [a, b] →
      ((shape (trunc1 b traj.actions)).take 2 ≠ [a, b] ∨
       (shape (trunc1 b traj.observations)).take 2 ≠ [a, b] ∨
       shape (trunc1 b traj.log_probs) ≠ [a, b] ∨
       shape (trunc1 b traj.mask) ≠ [a, b]) →
      policy_inputs γ nExtraSteps est traj values = none) := by
  refine ⟨?_, ?_, ?_, ?_⟩
  · intro π pbs scale vmodel pif traj values hsq hrank
    have hbody : policy_batches_body pbs scale vmodel pif traj
        = Option.bind (squeezeAt 2 (map1 (· * scale) (vmodel traj.observations)))
            (fun values => if (shape values).length ≠ 2 then none
              else if (shape values).headD 0 ≠ pbs then none else pif traj values) := rfl
    rw [hbody, hsq, Option.some_bind, if_pos hrank]
  · intro π pbs scale vmodel pif traj values hsq hdim
    have hbody : policy_batches_body pbs scale vmodel pif traj
        = Option.bind (squeezeAt 2 (map1 (· * scale) (vmodel traj.observations)))
            (fun values => if (shape values).length ≠ 2 then none
              else if (shape values).headD 0 ≠ pbs then none else pif traj values) := rfl
    rw [hbody, hsq, Option.some_bind]
    by_cases hrank : (shape values).length ≠ 2
    · rw [if_pos hrank]
    · rw [if_neg hrank, if_pos hdim]
  · intro γ nExtraSteps est traj values hrank
    have hbody : policy_inputs γ nExtraSteps est traj values
        = Option.bind (shape (est traj.rewards traj.returns values γ nExtraSteps))[1]?
            (fun length =>
              if (shape (est traj.rewards traj.returns values γ nExtraSteps)).length ≠ 2
                then none
              else if (shape (trunc1 length traj.actions)).take 2
                  ≠ shape (est traj.rewards traj.returns values γ nExtraSteps) then none
              else if (shape (trunc1 length traj.observations)).take 2
                  ≠ shape (est traj.rewards traj.returns values γ nExtraSteps) then none
              else if shape (trunc1 length traj.log_probs)
                  ≠ shape (est traj.rewards traj.returns values γ nExtraSteps) then none
              else if shape (trunc1 length traj.mask)
                  ≠ shape (est traj.rewards traj.returns values γ nExtraSteps) then none
              else pure (trunc1 length traj.observations, trunc1 length traj.actions,
                est traj.rewards traj.returns values γ nExtraSteps,
                trunc1 length traj.log_probs, trunc1 length traj.mask)) := rfl
    rw [hbody]
    cases hl : (shape (est traj.rewards traj.returns values γ nExtraSteps))[1]? with
    | none => rfl
    | some len => rw [Option.some_bind, if_pos hrank]
  · intro γ nExtraSteps est traj values a b hsh hd
    have hbody : policy_inputs γ nExtraSteps est traj values
        = Option.bind (shape (est traj.rewards traj.returns values γ nExtraSteps))[1]?
            (fun length =>
              if (shape (est traj.rewards traj.returns values γ nExtraSteps)).length ≠ 2
                then none
              else if (shape (trunc1 length traj.actions)).take 2
                  ≠ shape (est traj.rewards traj.returns values γ nExtraSteps) then none
              else if (shape (trunc1 length traj.observations)).take 2
                  ≠ shape (est traj.rewards traj.returns values γ nExtraSteps) then none
              else if shape (trunc1 length traj.log_probs)
                  ≠ shape (est traj.rewards traj.returns values γ nExtraSteps) then none
              else if shape (trunc1 length traj.mask)
                  ≠ shape (est traj.rewards traj.returns values γ nExtraSteps) then none
              else pure (trunc1 length traj.observations, trunc1 length traj.actions,
                est traj.rewards traj.returns values γ nExtraSteps,
                trunc1 length traj.log_probs, trunc1 length traj.mask)) := rfl
    rw [hbody, hsh]
    show Option.bind (some b) _ = none
    rw [Option.some_bind]
    rcases hd with h2 | h3 | h4 | h5 <;> split_ifs <;> simp_all

/-- Witness for C4: a rank-3 squeezed value tensor, a batch-size
mismatch, a rank-1 advantage estimate, and a log-probs shape mismatch
each abort batch construction. -/
theorem shape_contract_fatal_witness :
    policy_batches_body 8 1 (fun _ => ND.a [ND.a [ND.a [ND.a [ND.s 0]]]])
      (fun _ _ => some (0 : ℕ))
      (TrajNp.mk (ND.s 0) (ND.s 0) (ND.s 0) (ND.s 0) (ND.s 0) (ND.s 0)) = none ∧
    policy_batches_body 8 1 (fun _ => ND.a [ND.a [ND.a [ND.s 0]]])
      (fun _ _ => some (0 : ℕ))
      (TrajNp.mk (ND.s 0) (ND.s 0) (ND.s 0) (ND.s 0) (ND.s 0) (ND.s 0)) = none ∧
    policy_inputs 1 0 (fun _ _ _ _ _ => ND.a [ND.s 0])
      (TrajNp.mk (ND.s 0) (ND.s 0) (ND.s 0) (ND.s 0) (ND.s 0) (ND.s 0))
      (ND.s 0) = none ∧
    policy_inputs 1 0 (fun _ _ _ _ _ => ND.a [ND.a [ND.s 0, ND.s 0]])
      (TrajNp.mk (ND.a [ND.a [ND.s 0, ND.s 0]]) (ND.a [ND.a [ND.s 0, ND.s 0]])
        (ND.s 0) (ND.s 0) (ND.a [ND.a [ND.s 0]]) (ND.a [ND.a [ND.s 0, ND.s 0]]))
      (ND.s 0) = none := by
  refine ⟨?_, ?_, ?_, ?_⟩
  · exact shape_contract_fatal.1 ℕ 8 1 _ _ _ (ND.a [ND.a [ND.a [ND.s 0]]])
      (by simp [map1, map1List, squeezeAt, squeezeAtList, mul_one]) (by decide)
  · exact shape_contract_fatal.2.1 ℕ 8 1 _ _ _ (ND.a [ND.a [ND.s 0]])
      (by simp [map1, map1List, squeezeAt, squeezeAtList, mul_one]) (by decide)
  · exact shape_contract_fatal.2.2.1 1 0 _ _ _ (by decide)
  · exact shape_contract_fatal.2.2.2 1 0 _ _ _ 1 2 (by rfl)
      (Or.inr (Or.inr (Or.inl (by decide))))

/-- C9: `PPOLoss` squeezes the last axis of `old_log_probs`, so on the
rank-2 `[batch, time]` old log-probs that `policy_inputs` validates and
yields (with `time > 1`), the squeeze fails and no loss is computed. -/
theorem ppo_loss_old_log_probs_squeeze_fails
    (γ : ℚ) (nExtraSteps : ℕ) (est : AdvEstimator) (traj : TrajNp) (values : ND)
    (obs act adv oldlp mask : ND) (b t : ℕ)
    (hpi : policy_inputs γ nExtraSteps est traj values
      = some (obs, act, adv, oldlp, mask))
    (hshape : shape adv = [b, t]) (hb : 0 < b) (ht : 1 < t)
    (epsilon : ℚ) (rexp : ℚ → ℚ) (new advantages2 mask2 : ND) :
    PPOLoss epsilon rexp new advantages2 oldlp mask2 = none := by
  have hbody : policy_inputs γ nExtraSteps est traj values
      = Option.bind (shape (est traj.rewards traj.returns values γ nExtraSteps))[1]?
          (fun length =>
            if (shape (est traj.rewards traj.returns values γ nExtraSteps)).length ≠ 2
              then none
            else if (shape (trunc1 length traj.actions)).take 2
                ≠ shape (est traj.rewards traj.returns values γ nExtraSteps) then none
            else if (shape (trunc1 length traj.observations)).take 2
                ≠ shape (est traj.rewards traj.returns values γ nExtraSteps) then none
            else if shape (trunc1 length traj.log_probs)
                ≠ shape (est traj.rewards traj.returns values γ nExtraSteps) then none
            else if shape (trunc1 length traj.mask)
                ≠ shape (est traj.rewards traj.returns values γ nExtraSteps) then none
            else some (trunc1 length traj.observations, trunc1 length traj.actions,
              est traj.rewards traj.returns values γ nExtraSteps,
              trunc1 length traj.log_probs, trunc1 length traj.mask)) := rfl
  have holdshape : shape oldlp = [b, t] := by
    rw [hbody] at hpi
    cases hl : (shape (est traj.rewards traj.returns values γ nExtraSteps))[1]? with
    | none => rw [hl, Option.none_bind] at hpi; exact Option.noConfusion hpi
    | some len =>
      rw [hl, Option.some_bind] at hpi
      split_ifs at hpi with h1 h2 h3 h4 h5
      simp only [Option.some_inj, Prod.mk.injEq] at hpi
      obtain ⟨-, -, hadv, holdlp, -⟩ := hpi
      rw [not_ne_iff] at h4
      rw [← holdlp, h4, hadv]
      exact hshape
  have hnone : squeezeAt 1 oldlp = none :=
    squeezeAt1_none_of_shape holdshape hb (by omega)
  have hsl : squeezeLast oldlp = none := by
    have hrank : rankND oldlp - 1 = 1 := by simp [rankND, holdshape]
    simp only [squeezeLast]
    rw [hrank]
    exact hnone
  obtain ⟨f, hf⟩ : ∃ f, PPOLoss epsilon rexp new advantages2 oldlp mask2
      = Option.bind (squeezeLast oldlp) f := ⟨_, rfl⟩
  rw [hf, hsl, Option.none_bind]

/-- Witness for C9: a valid `policy_inputs` batch with time length 2
whose old log-probs make `PPOLoss` fail. -/
theorem ppo_loss_old_log_probs_squeeze_fails_witness :
    policy_inputs 1 0 (fun _ _ _ _ _ => ND.a [ND.a [ND.s 0, ND.s 0]])
      (TrajNp.mk (ND.a [ND.a [ND.s 0, ND.s 0]]) (ND.a [ND.a [ND.s 0, ND.s 0]])
        (ND.s 0) (ND.s 0) (ND.a [ND.a [ND.s 0, ND.s 0]]) (ND.a [ND.a [ND.s 0, ND.s 0]]))
      (ND.s 0)
      = some (ND.a [ND.a [ND.s 0, ND.s 0]], ND.a [ND.a [ND.s 0, ND.s 0]],
          ND.a [ND.a [ND.s 0, ND.s 0]], ND.a [ND.a [ND.s 0, ND.s 0]],
          ND.a [ND.a [ND.s 0, ND.s 0]]) ∧
    PPOLoss (1/5) (fun _ => 1) (ND.s 0) (ND.s 0) (ND.a [ND.a [ND.s 0, ND.s 0]])
      (ND.s 0) = none := by
  constructor
  · rfl
  · exact ppo_loss_old_log_probs_squeeze_fails 1 0
      (fun _ _ _ _ _ => ND.a [ND.a [ND.s 0, ND.s 0]])
      (TrajNp.mk (ND.a [ND.a [ND.s 0, ND.s 0]]) (ND.a [ND.a [ND.s 0, ND.s 0]])
        (ND.s 0) (ND.s 0) (ND.a [ND.a [ND.s 0, ND.s 0]]) (ND.a [ND.a [ND.s 0, ND.s 0]]))
      (ND.s 0) _ _ _ _ _ 1 2 (by rfl) (by rfl) (by decide) (by decide)
      (1/5) (fun _ => 1) (ND.s 0) (ND.s 0) (ND.s 0)

/-- C7: `PPOLoss` computes
`-sum(min(ratio * adv, clip(ratio, 1-eps, 1+eps) * adv) * mask) / sum(mask)`
with `ratio = exp(new - old)` (the definition `PPOLoss`); for any input
where the ratio is 1 everywhere (the squeezed old log-probs equal the
new ones, and `exp 0 = 1`), advantages all `2`, and `epsilon = 1/5`,
the loss is exactly `-2`. -/
theorem ppo_loss_ratio_one (b t : ℕ) (rexp : ℚ → ℚ) (hexp : rexp 0 = 1)
    (new old mask : ND)
    (hnew : hasShape new [b, t] = true)
    (hold : squeezeLast old = some new)
    (hmask : hasShape mask [b, t] = true)
    (hsum : sumND mask ≠ 0) :
    PPOLoss (1/5) rexp new (constND b t 2) old mask = some (-2) := by
  have hsame_na : sameShape new (constND b t 2) = true :=
    hasShape_sameShape new [b, t] _ hnew (constND_hasShape b t 2)
  have hsame_mm : sameShape mask mask = true :=
    hasShape_sameShape mask [b, t] mask hmask hmask
  have hdiff : zip2 (· - ·) new new = some (map1 (fun q => q - q) new) :=
    zip2_self _ new
  have hratio : map1 rexp (map1 (fun q => q - q) new)
      = map1 (fun _ => (1 : ℚ)) new := by
    rw [map1_map1]
    congr 1
    funext q
    rw [sub_self, hexp]
  have huncl : zip2 (· * ·) (map1 (fun _ => (1 : ℚ)) new) (constND b t 2)
      = some (constND b t 2) := by
    rw [zip2_map1_const_left _ _ new (constND b t 2) hsame_na, map1_constND]
    norm_num
  have hclip : map1 (fun r => clipQ r (1 - 1/5) (1 + 1/5))
      (map1 (fun _ => (1 : ℚ)) new) = map1 (fun _ => (1 : ℚ)) new := by
    rw [map1_map1]
    congr 1
    funext q
    norm_num [clipQ]
  have hmin : zip2 min (constND b t 2) (constND b t 2) = some (constND b t 2) := by
    rw [zip2_self]
    rw [show (fun q : ℚ => min q q) = (fun q : ℚ => q) from funext fun q => min_self q,
      map1_id]
  have hconstm : constND b t (2 : ℚ) = map1 (fun _ => (2 : ℚ)) mask :=
    (map1_const_of_hasShape 2 hmask).symm
  have hmasked : zip2 (· * ·) (constND b t 2) mask
      = some (map1 (fun v => 2 * v) mask) := by
    rw [hconstm]
    exact zip2_map1_const_left _ 2 mask mask hsame_mm
  simp only [PPOLoss]
  rw [hold, Option.some_bind, hdiff, Option.some_bind, hratio, hclip, huncl,
    Option.some_bind, Option.some_bind, hmin, Option.some_bind, hmasked,
    Option.some_bind, sum_map1_mul]
  rw [neg_div, mul_div_assoc, div_self hsum, mul_one]

/-- Witness for C7 at batch 1, time 1 with `exp` stubbed by its value
at 0. -/
theorem ppo_loss_ratio_one_witness :
    PPOLoss (1/5) (fun _ => 1) (ND.a [ND.a [ND.s 3]]) (constND 1 1 2)
      (ND.a [ND.a [ND.a [ND.s 3]]]) (ND.a [ND.a [ND.s 1]]) = some (-2) := by
  refine ppo_loss_ratio_one 1 1 (fun _ => 1) rfl _ _ _ (by decide) ?_ (by decide)
    (by simp [sumND, sumNDList])
  simp [squeezeLast, rankND, shape, squeezeAt, squeezeAtList]

/-- C8: `AWRLoss` caps `awr_weights` at `w_max` and averages the
weighted negative log-likelihood: for advantages `[0, l2]` with
`exp 0 = 1`, `exp l2 = 2` (`l2 = ln 2`), `beta = 1` and `w_max = 20`,
the weights are `[1, 2]` and the loss is
`-sum(log_probs * [1, 2] * mask) / sum(mask)`. -/
theorem awr_loss_weights (rexp : ℚ → ℚ) (l2 : ℚ)
    (hexp0 : rexp 0 = 1) (hexp2 : rexp l2 = 2)
    (lp0 lp1 m0 m1 : ℚ) (old : ND) :
    map1 (fun w => min w 20) (awr_weights rexp (ND.a [ND.a [ND.s 0, ND.s l2]]) 1)
      = ND.a [ND.a [ND.s 1, ND.s 2]] ∧
    AWRLoss 1 20 rexp (ND.a [ND.a [ND.s lp0, ND.s lp1]])
      (ND.a [ND.a [ND.s 0, ND.s l2]]) old (ND.a [ND.a [ND.s m0, ND.s m1]])
      = some (-(lp0 * 1 * m0 + lp1 * 2 * m1) / (m0 + m1)) := by
  have hw : map1 (fun w => min w 20)
      (awr_weights rexp (ND.a [ND.a [ND.s 0, ND.s l2]]) 1)
      = ND.a [ND.a [ND.s 1, ND.s 2]] := by
    simp only [awr_weights, map1, map1List, div_one, hexp0, hexp2]
    norm_num
  refine ⟨hw, ?_⟩
  simp only [AWRLoss, hw]
  simp [zip2, zip2List, sumND, sumNDList]

/-- Witness for C8 with `exp` stubbed at the two probed points and
`l2 = 1` standing for `ln 2`. -/
theorem awr_loss_weights_witness :
    map1 (fun w => min w 20) (awr_weights (fun q : ℚ => if q = 0 then 1 else 2)
      (ND.a [ND.a [ND.s 0, ND.s 1]]) 1) = ND.a [ND.a [ND.s 1, ND.s 2]] ∧
    AWRLoss 1 20 (fun q : ℚ => if q = 0 then 1 else 2)
      (ND.a [ND.a [ND.s 3, ND.s 5]]) (ND.a [ND.a [ND.s 0, ND.s 1]]) (ND.s 0)
      (ND.a [ND.a [ND.s 1, ND.s 1]])
      = some (-(3 * 1 * 1 + 5 * 2 * 1) / (1 + 1)) :=
  awr_loss_weights (fun q : ℚ => if q = 0 then 1 else 2) 1 (by simp)
    (by norm_num) 3 5 1 1 (ND.s 0)

/-- C1: for every trajectory batch, with `L` the advantage estimator's
output time length, `value_batches_stream` yields
`(observations[:, :L], (values[:, :L] + advantages)[:, :, None] / scale,
mask[:, :L, None])` where `values` is the value-target model's output
times `value_network_scale` with the singleton channel squeezed;
multiplying the yielded target by the scale recovers
`values[:, :L] + advantages` exactly, and at full-length estimator
output (`L = t`) the recovered target is `values + advantages` with no
truncation. -/
theorem value_batches_stream_targets
    (scale γ : ℚ) (hscale : scale ≠ 0) (nExtraSteps b t L : ℕ)
    (vmodel : ND → ND) (est : AdvEstimator) (traj : TrajNp)
    (values adv : ND)
    (hsq : squeezeAt 2 (map1 (· * scale) (vmodel traj.observations)) = some values)
    (hval : hasShape values [b, t] = true)
    (hadv : est traj.rewards traj.returns values γ nExtraSteps = adv)
    (hadvsh : hasShape adv [b, L] = true)
    (hb : 0 < b) (hL : L ≤ t) :
    ∃ target_returns,
      zip2 (· + ·) (trunc1 L values) adv = some target_returns ∧
      valueBatch scale γ nExtraSteps vmodel est traj
        = some (trunc1 L traj.observations,
            map1 (· / scale) (expandLast target_returns),
            expandLast (trunc1 L traj.mask)) ∧
      map1 (· * scale) (map1 (· / scale) (expandLast target_returns))
        = expandLast target_returns ∧
      (L = t → zip2 (· + ·) values adv = some target_returns) := by
  have htr : hasShape (trunc1 L values) [b, L] = true := by
    have h := trunc1_shape L hval
    rwa [min_eq_left hL] at h
  have hsame : sameShape (trunc1 L values) adv = true :=
    hasShape_sameShape _ [b, L] _ htr hadvsh
  obtain ⟨tgt, htgt⟩ := zip2_total (· + ·) _ _ hsame
  refine ⟨tgt, htgt, ?_, ?_, ?_⟩
  · simp only [valueBatch]
    rw [hsq, Option.some_bind, hadv, shape_get1_of_hasShape hadvsh hb,
      Option.some_bind, htgt, Option.some_bind]
  · rw [map1_map1]
    have hfn : (fun q : ℚ => q / scale * scale) = fun q : ℚ => q := by
      funext q
      rw [div_mul_cancel₀ q hscale]
    rw [hfn, map1_id]
  · intro hLt
    subst hLt
    rwa [trunc1_full hval] at htgt

/-- Witness for C1 on a 1×1 batch: model value 4, advantage 3, target 7. -/
theorem value_batches_stream_targets_witness :
    zip2 (· + ·) (trunc1 1 (ND.a [ND.a [ND.s 4]])) (ND.a [ND.a [ND.s 3]])
      = some (ND.a [ND.a [ND.s 7]]) ∧
    valueBatch 1 (99/100) 0 (fun _ => ND.a [ND.a [ND.a [ND.s 4]]])
      (fun _ _ _ _ _ => ND.a [ND.a [ND.s 3]])
      (TrajNp.mk (ND.a [ND.a [ND.a [ND.s 9]]]) (ND.s 0) (ND.s 0) (ND.s 0) (ND.s 0)
        (ND.a [ND.a [ND.s 1]]))
      = some (trunc1 1 (ND.a [ND.a [ND.a [ND.s 9]]]),
          map1 (· / 1) (expandLast (ND.a [ND.a [ND.s 7]])),
          expandLast (trunc1 1 (ND.a [ND.a [ND.s 1]]))) := by
  have hc : zip2 (· + ·) (trunc1 1 (ND.a [ND.a [ND.s 4]])) (ND.a [ND.a [ND.s 3]])
      = some (ND.a [ND.a [ND.s 7]]) := by
    norm_num [zip2, zip2List, trunc1]
  obtain ⟨tgt, h1, h2, h3, h4⟩ := value_batches_stream_targets 1 (99/100)
    (by norm_num) 0 1 1 1 (fun _ => ND.a [ND.a [ND.a [ND.s 4]]])
    (fun _ _ _ _ _ => ND.a [ND.a [ND.s 3]])
    (TrajNp.mk (ND.a [ND.a [ND.a [ND.s 9]]]) (ND.s 0) (ND.s 0) (ND.s 0) (ND.s 0)
      (ND.a [ND.a [ND.s 1]]))
    (ND.a [ND.a [ND.s 4]]) (ND.a [ND.a [ND.s 3]])
    (by simp [map1, map1List, squeezeAt, squeezeAtList])
    (by decide) rfl (by decide) (by decide) (by decide)
  have htgt : tgt = ND.a [ND.a [ND.s 7]] := by
    rw [h1] at hc
    exact Option.some_inj.mp hc
  rw [htgt] at h2
  exact ⟨hc, h2⟩

end TraxActorCritic
